import Mathlib

/-!
Shallow embedding of the tiered stamp-duty calculator `calculate_stamp_duty`
from `src/src/mcp.py`.

Modelling choices:
* The Python function is declared with `property_price: int` and immediately
  converts it with `float(property_price)`; we model the input as `ℤ` and the
  internal floating-point arithmetic with exact rationals `ℚ`.
* A band threshold is `Option ℚ`; `none` models `float('inf')` (the unbounded
  top band).  `min(threshold, price)` with an infinite threshold is `price`,
  `threshold - previous` is infinite, so `min(remaining, ∞)` is `remaining`,
  and `∞ >= price` always holds; each of these is built into the corresponding
  match arm below.
* The `'band'` display string `f'£{prev:,} - £{min(threshold, price):,}'` is
  modelled by its two numeric endpoints, and the `'rate'` string
  `f'{rate_display}%'` by the numeric `rate_display` value.
* Python's `round(x, 2)` rounds half to even; `round2` mirrors that on `ℚ`.
-/

/-- A tax band `(threshold, rate)`; `none` as threshold models `float('inf')`. -/
abbrev Band := Option ℚ × ℚ

/-- One dictionary appended to `breakdown`: the band display string is kept as
its two numeric endpoints (`lower`, `upper`), the rate display string as the
numeric percentage `rate`. -/
structure BandEntry where
  lower : ℚ
  upper : ℚ
  amount : ℚ
  rate : ℚ
  duty : ℚ
deriving DecidableEq

/-- The dictionary returned by `calculate_stamp_duty`. -/
structure TaxResult where
  total_stamp_duty : ℚ
  property_price : ℚ
  is_first_time_buyer : Bool
  is_additional_property : Bool
  breakdown : List BandEntry
deriving DecidableEq

/-- `standard_bands` from the source. -/
def standard_bands : List Band :=
  [(some 125000, 0.0), (some 250000, 0.02), (some 925000, 0.05),
   (some 1500000, 0.10), (none, 0.12)]

/-- `first_time_buyer_bands` from the source. -/
def first_time_buyer_bands : List Band :=
  [(some 300000, 0.0), (some 500000, 0.05), (some 925000, 0.05),
   (some 1500000, 0.10), (none, 0.12)]

/-- `additional_property_surcharge = 0.05` from the source. -/
def additional_property_surcharge : ℚ := 0.05

/-- Round a rational to the nearest integer, ties to even: Python's `round`
with no digit argument. -/
def roundHalfEven (q : ℚ) : ℤ :=
  if q - ⌊q⌋ < 1/2 then ⌊q⌋
  else if (1 : ℚ)/2 < q - ⌊q⌋ then ⌊q⌋ + 1
  else if ⌊q⌋ % 2 = 0 then ⌊q⌋ else ⌊q⌋ + 1

/-- Python's `round(x, 2)` on exact rationals. -/
def round2 (q : ℚ) : ℚ := (roundHalfEven (q * 100) : ℚ) / 100

/-- `band_duty = band_amount * rate` plus, when `is_additional_property`,
`band_amount * additional_property_surcharge`. -/
def surchargeAmt (isAdd : Bool) (amt : ℚ) : ℚ :=
  if isAdd then amt * additional_property_surcharge else 0

/-- `rate_display = rate * 100`, plus `additional_property_surcharge * 100`
when `is_additional_property`. -/
def rateDisplay (isAdd : Bool) (r : ℚ) : ℚ :=
  r * 100 + (if isAdd then additional_property_surcharge * 100 else 0)

/-- The `for threshold, rate in bands` loop of `calculate_stamp_duty`,
returning the accumulated `stamp_duty` and the `breakdown` list.  The state
variables `remaining_price` and `previous_threshold` are the two `ℚ`
arguments.  The three `break`s of the source are the `(…, …)` returns:
`remaining_price <= 0`, and `threshold >= property_price` (always true for the
infinite threshold). -/
def runBands (price : ℚ) (isAdd : Bool) : ℚ → ℚ → List Band → ℚ × List BandEntry
  | _, _, [] => (0, [])
  | remaining, prev, (none, r) :: _ =>
    if remaining ≤ 0 then (0, [])
    else
      let amt := remaining
      let duty := amt * r + surchargeAmt isAdd amt
      (duty, if 0 < amt then [⟨prev, price, amt, rateDisplay isAdd r, duty⟩] else [])
  | remaining, prev, (some t, r) :: rest =>
    if remaining ≤ 0 then (0, [])
    else
      let amt := min remaining (t - prev)
      let duty := amt * r + surchargeAmt isAdd amt
      let entries := if 0 < amt then [⟨prev, min t price, amt, rateDisplay isAdd r, duty⟩] else []
      if price ≤ t then (duty, entries)
      else
        let res := runBands price isAdd (remaining - amt) t rest
        (duty + res.1, entries ++ res.2)

/-- `if is_first_time_buyer and property_price <= 500000: bands =
first_time_buyer_bands else: bands = standard_bands`. -/
def selected_bands (price : ℚ) (is_first_time_buyer : Bool) : List Band :=
  if is_first_time_buyer = true ∧ price ≤ 500000 then first_time_buyer_bands
  else standard_bands

/-- `calculate_stamp_duty` from `src/src/mcp.py`: the `int` argument is
converted to a real (`float(property_price)` in the source, `ℚ` here), the
band table is selected, the band loop is run, and the result dictionary is
assembled with the total rounded to 2 decimals. -/
def calculate_stamp_duty (property_price : ℤ) (is_first_time_buyer : Bool)
    (is_additional_property : Bool) : TaxResult :=
  let price : ℚ := (property_price : ℚ)
  let bands := selected_bands price is_first_time_buyer
  let res := runBands price is_additional_property price 0 bands
  { total_stamp_duty := round2 res.1
    property_price := price
    is_first_time_buyer := is_first_time_buyer
    is_additional_property := is_additional_property
    breakdown := res.2 }

/-! ### Specification-side helper definitions (not part of the source) -/

/-- The band list ends in an unbounded (`none`) threshold, so the loop can
never fall off the end with price left over. -/
def endsUnbounded : List Band → Bool
  | [] => false
  | [(t, _)] => t.isNone
  | _ :: b :: rest => endsUnbounded (b :: rest)

/-- Finite thresholds are weakly increasing from the given lower edge (later
entries past an infinite threshold are never reached and are unconstrained). -/
def bandsMono : ℚ → List Band → Prop
  | _, [] => True
  | _, (none, _) :: _ => True
  | prev, (some t, _) :: rest => prev ≤ t ∧ bandsMono t rest

/-- All rates in the table are non-negative. -/
def ratesNonneg (bs : List Band) : Prop := ∀ b ∈ bs, 0 ≤ b.2

/-- Closed form of the duty accumulated by the loop from lower edge `prev`,
ignoring the surcharge. -/
def tailDuty (price : ℚ) : ℚ → List Band → ℚ
  | _, [] => 0
  | prev, (none, r) :: _ => (price - prev) * r
  | prev, (some t, r) :: rest =>
    if price ≤ t then (price - prev) * r else (t - prev) * r + tailDuty price t rest

/-- `q` is an integer. -/
def IsIntQ (q : ℚ) : Prop := ∃ n : ℤ, q = (n : ℚ)

/-- `q` is an integer number of hundredths, so `round2` leaves it unchanged. -/
def CentMul (q : ℚ) : Prop := ∃ k : ℤ, q = (k : ℚ) / 100

/-- Thresholds are integers and each rate is a whole number of percent
hundredths, as in both concrete tables. -/
def centBands (bs : List Band) : Prop :=
  ∀ b ∈ bs, (∀ t, b.1 = some t → IsIntQ t) ∧ CentMul b.2

/-! ### Helper lemmas -/

theorem runBands_of_nonpos (price : ℚ) (isAdd : Bool) (rem prev : ℚ) (h : rem ≤ 0) :
    ∀ bs : List Band, runBands price isAdd rem prev bs = (0, []) := by
  intro bs
  cases bs with
  | nil => rfl
  | cons b rest =>
    obtain ⟨t, r⟩ := b
    cases t <;> simp [runBands, h]

theorem endsUnbounded_std : endsUnbounded standard_bands = true := rfl

theorem endsUnbounded_ftb : endsUnbounded first_time_buyer_bands = true := rfl

theorem bandsMono_std : bandsMono 0 standard_bands := by
  norm_num [bandsMono, standard_bands]

theorem bandsMono_ftb : bandsMono 0 first_time_buyer_bands := by
  norm_num [bandsMono, first_time_buyer_bands]

theorem ratesNonneg_std : ratesNonneg standard_bands := by
  intro b hb
  simp only [standard_bands, List.mem_cons, List.not_mem_nil, or_false] at hb
  rcases hb with rfl | rfl | rfl | rfl | rfl <;> norm_num

theorem ratesNonneg_ftb : ratesNonneg first_time_buyer_bands := by
  intro b hb
  simp only [first_time_buyer_bands, List.mem_cons, List.not_mem_nil, or_false] at hb
  rcases hb with rfl | rfl | rfl | rfl | rfl <;> norm_num

theorem centBands_std : centBands standard_bands := by
  intro b hb
  simp only [standard_bands, List.mem_cons, List.not_mem_nil, or_false] at hb
  rcases hb with rfl | rfl | rfl | rfl | rfl
  · exact ⟨fun t ht => ⟨125000, by exact_mod_cast (Option.some.inj ht).symm⟩, ⟨0, by norm_num⟩⟩
  · exact ⟨fun t ht => ⟨250000, by exact_mod_cast (Option.some.inj ht).symm⟩, ⟨2, by norm_num⟩⟩
  · exact ⟨fun t ht => ⟨925000, by exact_mod_cast (Option.some.inj ht).symm⟩, ⟨5, by norm_num⟩⟩
  · exact ⟨fun t ht => ⟨1500000, by exact_mod_cast (Option.some.inj ht).symm⟩, ⟨10, by norm_num⟩⟩
  · exact ⟨fun t ht => by simp at ht, ⟨12, by norm_num⟩⟩

theorem centBands_ftb : centBands first_time_buyer_bands := by
  intro b hb
  simp only [first_time_buyer_bands, List.mem_cons, List.not_mem_nil, or_false] at hb
  rcases hb with rfl | rfl | rfl | rfl | rfl
  · exact ⟨fun t ht => ⟨300000, by exact_mod_cast (Option.some.inj ht).symm⟩, ⟨0, by norm_num⟩⟩
  · exact ⟨fun t ht => ⟨500000, by exact_mod_cast (Option.some.inj ht).symm⟩, ⟨5, by norm_num⟩⟩
  · exact ⟨fun t ht => ⟨925000, by exact_mod_cast (Option.some.inj ht).symm⟩, ⟨5, by norm_num⟩⟩
  · exact ⟨fun t ht => ⟨1500000, by exact_mod_cast (Option.some.inj ht).symm⟩, ⟨10, by norm_num⟩⟩
  · exact ⟨fun t ht => by simp at ht, ⟨12, by norm_num⟩⟩

theorem selected_endsUnbounded (price : ℚ) (ftb : Bool) :
    endsUnbounded (selected_bands price ftb) = true := by
  unfold selected_bands
  split
  · exact endsUnbounded_ftb
  · exact endsUnbounded_std

theorem selected_bandsMono (price : ℚ) (ftb : Bool) : bandsMono 0 (selected_bands price ftb) := by
  unfold selected_bands
  split
  · exact bandsMono_ftb
  · exact bandsMono_std

theorem selected_ratesNonneg (price : ℚ) (ftb : Bool) :
    ratesNonneg (selected_bands price ftb) := by
  unfold selected_bands
  split
  · exact ratesNonneg_ftb
  · exact ratesNonneg_std

theorem selected_centBands (price : ℚ) (ftb : Bool) : centBands (selected_bands price ftb) := by
  unfold selected_bands
  split
  · exact centBands_ftb
  · exact centBands_std

theorem selected_eq_ftb {price : ℚ} (h : price ≤ 500000) :
    selected_bands price true = first_time_buyer_bands := if_pos ⟨rfl, h⟩

theorem selected_eq_std_false (price : ℚ) : selected_bands price false = standard_bands :=
  if_neg (fun hc => by simpa using hc.1)

theorem selected_eq_std_gt {price : ℚ} (h : 500000 < price) (ftb : Bool) :
    selected_bands price ftb = standard_bands := by
  unfold selected_bands
  rw [if_neg]
  rintro ⟨-, h2⟩
  linarith

theorem tailDuty_at_500000_ftb : tailDuty 500000 0 first_time_buyer_bands = 10000 := by
  norm_num [tailDuty, first_time_buyer_bands]

theorem tailDuty_at_500000_std : tailDuty 500000 0 standard_bands = 15000 := by
  norm_num [tailDuty, standard_bands]

theorem total_stamp_duty_eq (price : ℤ) (ftb add : Bool) :
    (calculate_stamp_duty price ftb add).total_stamp_duty =
      round2 (runBands (price : ℚ) add (price : ℚ) 0 (selected_bands (price : ℚ) ftb)).1 := rfl

theorem breakdown_eq (price : ℤ) (ftb add : Bool) :
    (calculate_stamp_duty price ftb add).breakdown =
      (runBands (price : ℚ) add (price : ℚ) 0 (selected_bands (price : ℚ) ftb)).2 := rfl

theorem runBands_fst_eq (price : ℚ) (isAdd : Bool) :
    ∀ (bs : List Band) (prev : ℚ), endsUnbounded bs = true → prev < price →
      (runBands price isAdd (price - prev) prev bs).1 =
        tailDuty price prev bs +
          (if isAdd then (price - prev) * additional_property_surcharge else 0) := by
  intro bs
  induction bs with
  | nil => intro prev h _; simp [endsUnbounded] at h
  | cons b rest ih =>
    intro prev hend hlt
    obtain ⟨t, r⟩ := b
    have hrem : ¬(price - prev ≤ 0) := by linarith
    cases t with
    | none =>
      simp only [runBands, tailDuty, if_neg hrem, surchargeAmt]
    | some tv =>
      by_cases hpt : price ≤ tv
      · have hmin : min (price - prev) (tv - prev) = price - prev := min_eq_left (by linarith)
        simp only [runBands, tailDuty, if_neg hrem, if_pos hpt, hmin, surchargeAmt]
      · have htv : tv < price := not_le.mp hpt
        have hmin : min (price - prev) (tv - prev) = tv - prev := min_eq_right (by linarith)
        have hrest : endsUnbounded rest = true := by
          cases rest with
          | nil => simp [endsUnbounded] at hend
          | cons b' rest' => simpa [endsUnbounded] using hend
        have ihv := ih tv hrest htv
        simp only [runBands, tailDuty, if_neg hrem, if_neg hpt, hmin]
        rw [show price - prev - (tv - prev) = price - tv by ring, ihv]
        simp only [surchargeAmt]
        cases isAdd
        · simp
        · simp
          ring

theorem runBands_sum (price : ℚ) (isAdd : Bool) :
    ∀ (bs : List Band) (prev : ℚ), endsUnbounded bs = true → bandsMono prev bs →
      prev < price →
      (((runBands price isAdd (price - prev) prev bs).2.map BandEntry.amount)).sum =
        price - prev := by
  intro bs
  induction bs with
  | nil => intro prev h _ _; simp [endsUnbounded] at h
  | cons b rest ih =>
    intro prev hend hmono hlt
    obtain ⟨t, r⟩ := b
    have hrem : ¬(price - prev ≤ 0) := by linarith
    have hpos : (0 : ℚ) < price - prev := by linarith
    cases t with
    | none =>
      simp only [runBands, if_neg hrem, if_pos hpos]
      simp
    | some tv =>
      have hm : prev ≤ tv ∧ bandsMono tv rest := hmono
      by_cases hpt : price ≤ tv
      · have hmin : min (price - prev) (tv - prev) = price - prev := min_eq_left (by linarith)
        simp only [runBands, if_neg hrem, if_pos hpt, hmin, if_pos hpos]
        simp
      · have htv : tv < price := not_le.mp hpt
        have hmin : min (price - prev) (tv - prev) = tv - prev := min_eq_right (by linarith)
        have hrest : endsUnbounded rest = true := by
          cases rest with
          | nil => simp [endsUnbounded] at hend
          | cons b' rest' => simpa [endsUnbounded] using hend
        have ihv := ih tv hrest hm.2 htv
        simp only [runBands, if_neg hrem, if_neg hpt, hmin]
        rw [show price - prev - (tv - prev) = price - tv by ring]
        by_cases hz : 0 < tv - prev
        · simp only [if_pos hz, List.map_append, List.sum_append, List.map_cons,
            List.map_nil, List.sum_cons, List.sum_nil, ihv]
          ring
        · have : tv - prev = 0 := le_antisymm (not_lt.mp hz) (by linarith [hm.1])
          simp only [if_neg hz, List.nil_append, ihv]
          linarith

theorem isIntQ_sub {a b : ℚ} (ha : IsIntQ a) (hb : IsIntQ b) : IsIntQ (a - b) := by
  obtain ⟨n, rfl⟩ := ha
  obtain ⟨m, rfl⟩ := hb
  exact ⟨n - m, by push_cast; ring⟩

theorem isIntQ_min {a b : ℚ} (ha : IsIntQ a) (hb : IsIntQ b) : IsIntQ (min a b) := by
  rcases le_total a b with h | h
  · rw [min_eq_left h]; exact ha
  · rw [min_eq_right h]; exact hb

theorem centMul_zero : CentMul 0 := ⟨0, by norm_num⟩

theorem centMul_add {a b : ℚ} (ha : CentMul a) (hb : CentMul b) : CentMul (a + b) := by
  obtain ⟨n, rfl⟩ := ha
  obtain ⟨m, rfl⟩ := hb
  exact ⟨n + m, by push_cast; ring⟩

theorem centMul_intMul {a r : ℚ} (ha : IsIntQ a) (hr : CentMul r) : CentMul (a * r) := by
  obtain ⟨n, rfl⟩ := ha
  obtain ⟨k, rfl⟩ := hr
  exact ⟨n * k, by push_cast; ring⟩

theorem centMul_surcharge : CentMul additional_property_surcharge :=
  ⟨5, by norm_num [additional_property_surcharge]⟩

theorem centMul_surchargeAmt {a : ℚ} (isAdd : Bool) (ha : IsIntQ a) :
    CentMul (surchargeAmt isAdd a) := by
  cases isAdd
  · exact centMul_zero
  · exact centMul_intMul ha centMul_surcharge

theorem runBands_cent (price : ℚ) (isAdd : Bool) :
    ∀ (bs : List Band) (rem prev : ℚ), centBands bs → IsIntQ rem → IsIntQ prev →
      CentMul (runBands price isAdd rem prev bs).1 := by
  intro bs
  induction bs with
  | nil => intro rem prev _ _ _; exact centMul_zero
  | cons b rest ih =>
    intro rem prev hcb hrem hprev
    obtain ⟨t, r⟩ := b
    have hhead := hcb (t, r) (List.mem_cons_self _ _)
    have hrest : centBands rest := fun b hb => hcb b (List.mem_cons_of_mem _ hb)
    by_cases hr0 : rem ≤ 0
    · rw [runBands_of_nonpos price isAdd rem prev hr0]
      exact centMul_zero
    · cases t with
      | none =>
        simp only [runBands, if_neg hr0]
        exact centMul_add (centMul_intMul hrem hhead.2) (centMul_surchargeAmt isAdd hrem)
      | some tv =>
        have htv : IsIntQ tv := hhead.1 tv rfl
        have hamt : IsIntQ (min rem (tv - prev)) := isIntQ_min hrem (isIntQ_sub htv hprev)
        have hduty : CentMul (min rem (tv - prev) * r + surchargeAmt isAdd (min rem (tv - prev))) :=
          centMul_add (centMul_intMul hamt hhead.2) (centMul_surchargeAmt isAdd hamt)
        by_cases hpt : price ≤ tv
        · simpa only [runBands, if_neg hr0, if_pos hpt] using hduty
        · simp only [runBands, if_neg hr0, if_neg hpt]
          exact centMul_add hduty (ih _ tv hrest (isIntQ_sub hrem hamt) htv)

theorem round2_cent {q : ℚ} (h : CentMul q) : round2 q = q := by
  obtain ⟨k, rfl⟩ := h
  have h100 : (k : ℚ) / 100 * 100 = (k : ℚ) := by field_simp
  unfold round2 roundHalfEven
  rw [h100, Int.floor_intCast]
  rw [if_pos (by norm_num : (k : ℚ) - (k : ℤ) < 1 / 2)]

theorem round2_zero : round2 0 = 0 := round2_cent centMul_zero

theorem tailDuty_nonneg (price : ℚ) :
    ∀ (bs : List Band) (prev : ℚ), prev ≤ price → ratesNonneg bs → bandsMono prev bs →
      0 ≤ tailDuty price prev bs := by
  intro bs
  induction bs with
  | nil => intro prev _ _ _; simp [tailDuty]
  | cons b rest ih =>
    intro prev hpp hr hm
    obtain ⟨t, r⟩ := b
    have hr0 : 0 ≤ r := hr (t, r) (List.mem_cons_self _ _)
    have hrrest : ratesNonneg rest := fun b hb => hr b (List.mem_cons_of_mem _ hb)
    cases t with
    | none =>
      simp only [tailDuty]
      exact mul_nonneg (by linarith) hr0
    | some tv =>
      have hm' : prev ≤ tv ∧ bandsMono tv rest := hm
      simp only [tailDuty]
      by_cases hpt : price ≤ tv
      · rw [if_pos hpt]
        exact mul_nonneg (by linarith) hr0
      · rw [if_neg hpt]
        have htv : tv < price := not_le.mp hpt
        exact add_nonneg (mul_nonneg (by linarith [hm'.1]) hr0)
          (ih tv htv.le hrrest hm'.2)

theorem tailDuty_mono {p q : ℚ} (hpq : p ≤ q) :
    ∀ (bs : List Band) (prev : ℚ), prev ≤ p → ratesNonneg bs → bandsMono prev bs →
      tailDuty p prev bs ≤ tailDuty q prev bs := by
  intro bs
  induction bs with
  | nil => intro prev _ _ _; simp [tailDuty]
  | cons b rest ih =>
    intro prev hprev hr hm
    obtain ⟨t, r⟩ := b
    have hr0 : 0 ≤ r := hr (t, r) (List.mem_cons_self _ _)
    have hrrest : ratesNonneg rest := fun b hb => hr b (List.mem_cons_of_mem _ hb)
    cases t with
    | none =>
      simp only [tailDuty]
      exact mul_le_mul_of_nonneg_right (by linarith) hr0
    | some tv =>
      have hm' : prev ≤ tv ∧ bandsMono tv rest := hm
      simp only [tailDuty]
      by_cases hp : p ≤ tv <;> by_cases hq2 : q ≤ tv
      · rw [if_pos hp, if_pos hq2]
        exact mul_le_mul_of_nonneg_right (by linarith) hr0
      · rw [if_pos hp, if_neg hq2]
        have h1 : (p - prev) * r ≤ (tv - prev) * r :=
          mul_le_mul_of_nonneg_right (by linarith) hr0
        have h2 : 0 ≤ tailDuty q tv rest :=
          tailDuty_nonneg q rest tv (not_le.mp hq2).le hrrest hm'.2
        linarith
      · exact absurd (hpq.trans hq2) hp
      · rw [if_neg hp, if_neg hq2]
        have := ih tv (not_le.mp hp).le hrrest hm'.2
        linarith

theorem surcharge_rate_nonneg : 0 ≤ additional_property_surcharge := by
  norm_num [additional_property_surcharge]

theorem calculate_stamp_duty_of_nonpos (price : ℤ) (h : (price : ℚ) ≤ 0) (ftb add : Bool) :
    calculate_stamp_duty price ftb add = ⟨0, (price : ℚ), ftb, add, []⟩ := by
  simp only [calculate_stamp_duty]
  rw [runBands_of_nonpos (price : ℚ) add (price : ℚ) 0 h (selected_bands (price : ℚ) ftb)]
  simp [round2_zero]

theorem duty_formula (q : ℚ) (hq : 0 < q) (ftb add : Bool) :
    (runBands q add q 0 (selected_bands q ftb)).1 =
      tailDuty q 0 (selected_bands q ftb) +
        (if add then q * additional_property_surcharge else 0) := by
  have h := runBands_fst_eq q add (selected_bands q ftb) 0 (selected_endsUnbounded q ftb) hq
  simpa using h

theorem selected_tailDuty_mono {p q : ℚ} (h0 : 0 ≤ p) (hpq : p ≤ q) (ftb : Bool) :
    tailDuty p 0 (selected_bands p ftb) ≤ tailDuty q 0 (selected_bands q ftb) := by
  cases ftb with
  | false =>
    rw [selected_eq_std_false, selected_eq_std_false]
    exact tailDuty_mono hpq standard_bands 0 h0 ratesNonneg_std bandsMono_std
  | true =>
    by_cases hq5 : q ≤ 500000
    · rw [selected_eq_ftb (hpq.trans hq5), selected_eq_ftb hq5]
      exact tailDuty_mono hpq first_time_buyer_bands 0 h0 ratesNonneg_ftb bandsMono_ftb
    · have hq5' : (500000 : ℚ) < q := not_le.mp hq5
      by_cases hp5 : p ≤ 500000
      · rw [selected_eq_ftb hp5, selected_eq_std_gt hq5']
        calc tailDuty p 0 first_time_buyer_bands
            ≤ tailDuty 500000 0 first_time_buyer_bands :=
              tailDuty_mono hp5 first_time_buyer_bands 0 h0 ratesNonneg_ftb bandsMono_ftb
          _ = 10000 := tailDuty_at_500000_ftb
          _ ≤ 15000 := by norm_num
          _ = tailDuty 500000 0 standard_bands := tailDuty_at_500000_std.symm
          _ ≤ tailDuty q 0 standard_bands :=
              tailDuty_mono hq5'.le standard_bands 0 (by norm_num) ratesNonneg_std bandsMono_std
      · have hp5' : (500000 : ℚ) < p := not_le.mp hp5
        rw [selected_eq_std_gt hp5', selected_eq_std_gt hq5']
        exact tailDuty_mono hpq standard_bands 0 h0 ratesNonneg_std bandsMono_std

/-! ### Claim theorems -/

/-- C1: for every non-negative price and any values of the two boolean flags,
the `amount` fields of the breakdown entries returned by
`calculate_stamp_duty` sum to the input price exactly. -/
theorem claim_breakdown_amounts_sum_to_price (price : ℤ) (h : 0 ≤ price) (ftb add : Bool) :
    ((calculate_stamp_duty price ftb add).breakdown.map BandEntry.amount).sum = (price : ℚ) := by
  rcases lt_or_eq_of_le h with hpos | heq
  · have hq : (0 : ℚ) < (price : ℚ) := by exact_mod_cast hpos
    rw [breakdown_eq]
    have hsum := runBands_sum (price : ℚ) add (selected_bands (price : ℚ) ftb) 0
      (selected_endsUnbounded _ _) (selected_bandsMono _ _) hq
    simpa using hsum
  · rw [← heq, calculate_stamp_duty_of_nonpos 0 (by norm_num) ftb add]
    simp

/-- C1 witness at price 300000 with the first-time-buyer flag set. -/
theorem claim_breakdown_amounts_sum_to_price_witness :
    (0 : ℤ) ≤ 300000 ∧
      ((calculate_stamp_duty 300000 true false).breakdown.map BandEntry.amount).sum =
        ((300000 : ℤ) : ℚ) :=
  ⟨by norm_num, claim_breakdown_amounts_sum_to_price 300000 (by norm_num) true false⟩

/-- C2 counterexample: at price `-1` the function does not fail; it returns
normally with a silently computed zero-duty result, refuting the claim that a
negative price surfaces an `InvalidInput` error to the caller. -/
theorem claim_negative_price_error_cex :
    calculate_stamp_duty (-1) false false = ⟨0, ((-1 : ℤ) : ℚ), false, false, []⟩ :=
  calculate_stamp_duty_of_nonpos (-1) (by norm_num) false false

/-- C2 (amended): for every negative price, `calculate_stamp_duty` returns
normally with `total_stamp_duty = 0` and an empty breakdown; no error
condition exists in the code. -/
theorem claim_negative_price_silent_result (price : ℤ) (h : price < 0) (ftb add : Bool) :
    (calculate_stamp_duty price ftb add).total_stamp_duty = 0 ∧
      (calculate_stamp_duty price ftb add).breakdown = [] := by
  have heq := calculate_stamp_duty_of_nonpos price (by exact_mod_cast h.le) ftb add
  exact ⟨by rw [heq], by rw [heq]⟩

/-- C2 amended-claim witness at price `-1`. -/
theorem claim_negative_price_silent_result_witness :
    (-1 : ℤ) < 0 ∧
      ((calculate_stamp_duty (-1) true false).total_stamp_duty = 0 ∧
        (calculate_stamp_duty (-1) true false).breakdown = []) :=
  ⟨by norm_num, claim_negative_price_silent_result (-1) (by norm_num) true false⟩

/-- C3: the result of `calculate_stamp_duty` is computed from
`selected_bands`, and `selected_bands` is the first-time-buyer table iff the
flag is set and the price is at most 500000; in every other case it is the
standard table. -/
theorem claim_table_selection (price : ℤ) (ftb add : Bool) :
    (calculate_stamp_duty price ftb add).breakdown =
        (runBands (price : ℚ) add (price : ℚ) 0 (selected_bands (price : ℚ) ftb)).2 ∧
      (calculate_stamp_duty price ftb add).total_stamp_duty =
        round2 (runBands (price : ℚ) add (price : ℚ) 0 (selected_bands (price : ℚ) ftb)).1 ∧
      (selected_bands (price : ℚ) ftb = first_time_buyer_bands ↔
        ftb = true ∧ price ≤ 500000) ∧
      (selected_bands (price : ℚ) ftb = standard_bands ↔
        ¬(ftb = true ∧ price ≤ 500000)) := by
  have hcast : ((price : ℚ) ≤ 500000) ↔ (price ≤ 500000) := by
    constructor <;> intro hh <;> exact_mod_cast hh
  have hne : first_time_buyer_bands ≠ standard_bands := by
    norm_num [first_time_buyer_bands, standard_bands]
  refine ⟨rfl, rfl, ?_, ?_⟩
  · unfold selected_bands
    by_cases hc : ftb = true ∧ (price : ℚ) ≤ 500000
    · rw [if_pos hc]
      exact ⟨fun _ => ⟨hc.1, hcast.mp hc.2⟩, fun _ => rfl⟩
    · rw [if_neg hc]
      exact ⟨fun he => absurd he.symm hne,
        fun hcond => absurd ⟨hcond.1, hcast.mpr hcond.2⟩ hc⟩
  · unfold selected_bands
    by_cases hc : ftb = true ∧ (price : ℚ) ≤ 500000
    · rw [if_pos hc]
      exact ⟨fun he => absurd he hne, fun hn => absurd ⟨hc.1, hcast.mp hc.2⟩ hn⟩
    · rw [if_neg hc]
      exact ⟨fun _ => fun hcond => absurd ⟨hcond.1, hcast.mpr hcond.2⟩ hc, fun _ => rfl⟩

/-- C4: for every non-negative price and either first-time-buyer flag, the
total duty with the additional-property flag set exceeds the total without it
by exactly `price * additional_property_surcharge`. -/
theorem claim_surcharge_additivity (price : ℤ) (h : 0 ≤ price) (ftb : Bool) :
    (calculate_stamp_duty price ftb true).total_stamp_duty -
        (calculate_stamp_duty price ftb false).total_stamp_duty =
      (price : ℚ) * additional_property_surcharge := by
  rcases lt_or_eq_of_le h with hpos | heq
  · have hq : (0 : ℚ) < (price : ℚ) := by exact_mod_cast hpos
    have c1 : CentMul (runBands (price : ℚ) true (price : ℚ) 0
        (selected_bands (price : ℚ) ftb)).1 :=
      runBands_cent _ true _ _ _ (selected_centBands _ _) ⟨price, rfl⟩ ⟨0, by norm_num⟩
    have c2 : CentMul (runBands (price : ℚ) false (price : ℚ) 0
        (selected_bands (price : ℚ) ftb)).1 :=
      runBands_cent _ false _ _ _ (selected_centBands _ _) ⟨price, rfl⟩ ⟨0, by norm_num⟩
    rw [total_stamp_duty_eq, total_stamp_duty_eq, round2_cent c1, round2_cent c2,
      duty_formula _ hq ftb true, duty_formula _ hq ftb false]
    simp
  · rw [← heq, calculate_stamp_duty_of_nonpos 0 (by norm_num) ftb true,
      calculate_stamp_duty_of_nonpos 0 (by norm_num) ftb false]
    simp

/-- C4 witness at price 300000 under the standard table. -/
theorem claim_surcharge_additivity_witness :
    (0 : ℤ) ≤ 300000 ∧
      (calculate_stamp_duty 300000 false true).total_stamp_duty -
          (calculate_stamp_duty 300000 false false).total_stamp_duty =
        ((300000 : ℤ) : ℚ) * additional_property_surcharge :=
  ⟨by norm_num, claim_surcharge_additivity 300000 (by norm_num) false⟩

/-- C5 counterexample: at price 600000 the two full results differ, because
the returned `is_first_time_buyer` field echoes the input flag. -/
theorem claim_ftb_full_result_cex :
    calculate_stamp_duty 600000 true false ≠ calculate_stamp_duty 600000 false false := by
  intro heq
  exact Bool.noConfusion (show true = false from congrArg TaxResult.is_first_time_buyer heq)

/-- C5 (amended): for every price above 500000 and either additional-property
flag, the results with and without the first-time-buyer flag agree on every
field except the echoed `is_first_time_buyer` flag itself: total, price,
additional-property flag and breakdown are identical. -/
theorem claim_ftb_ignored_above_limit (price : ℤ) (h : 500000 < price) (add : Bool) :
    (calculate_stamp_duty price true add).total_stamp_duty =
        (calculate_stamp_duty price false add).total_stamp_duty ∧
      (calculate_stamp_duty price true add).property_price =
        (calculate_stamp_duty price false add).property_price ∧
      (calculate_stamp_duty price true add).is_additional_property =
        (calculate_stamp_duty price false add).is_additional_property ∧
      (calculate_stamp_duty price true add).breakdown =
        (calculate_stamp_duty price false add).breakdown := by
  have hq : (500000 : ℚ) < (price : ℚ) := by exact_mod_cast h
  have hsel : selected_bands (price : ℚ) true = selected_bands (price : ℚ) false := by
    rw [selected_eq_std_gt hq, selected_eq_std_gt hq]
  refine ⟨?_, rfl, rfl, ?_⟩
  · rw [total_stamp_duty_eq, total_stamp_duty_eq, hsel]
  · rw [breakdown_eq, breakdown_eq, hsel]

/-- C5 amended-claim witness at price 600000. -/
theorem claim_ftb_ignored_above_limit_witness :
    (500000 : ℤ) < 600000 ∧
      ((calculate_stamp_duty 600000 true true).total_stamp_duty =
          (calculate_stamp_duty 600000 false true).total_stamp_duty ∧
        (calculate_stamp_duty 600000 true true).property_price =
          (calculate_stamp_duty 600000 false true).property_price ∧
        (calculate_stamp_duty 600000 true true).is_additional_property =
          (calculate_stamp_duty 600000 false true).is_additional_property ∧
        (calculate_stamp_duty 600000 true true).breakdown =
          (calculate_stamp_duty 600000 false true).breakdown) :=
  ⟨by norm_num, claim_ftb_ignored_above_limit 600000 (by norm_num) true⟩

/-- C6: the `is_first_time_buyer` field of the result always equals the input
flag, whatever the price (including above the eligibility limit). -/
theorem claim_result_echoes_ftb_flag (price : ℤ) (ftb add : Bool) :
    (calculate_stamp_duty price ftb add).is_first_time_buyer = ftb := rfl

/-- C7: holding both flags fixed, the total stamp duty is non-decreasing in
the price, including across the first-time-buyer eligibility boundary at
500000 where the band table switches. -/
theorem claim_total_duty_monotone (p1 p2 : ℤ) (h0 : 0 ≤ p1) (h12 : p1 ≤ p2)
    (ftb add : Bool) :
    (calculate_stamp_duty p1 ftb add).total_stamp_duty ≤
      (calculate_stamp_duty p2 ftb add).total_stamp_duty := by
  have hq0 : (0 : ℚ) ≤ (p1 : ℚ) := by exact_mod_cast h0
  have hq12 : (p1 : ℚ) ≤ (p2 : ℚ) := by exact_mod_cast h12
  have c1 : CentMul (runBands (p1 : ℚ) add (p1 : ℚ) 0 (selected_bands (p1 : ℚ) ftb)).1 :=
    runBands_cent _ add _ _ _ (selected_centBands _ _) ⟨p1, rfl⟩ ⟨0, by norm_num⟩
  have c2 : CentMul (runBands (p2 : ℚ) add (p2 : ℚ) 0 (selected_bands (p2 : ℚ) ftb)).1 :=
    runBands_cent _ add _ _ _ (selected_centBands _ _) ⟨p2, rfl⟩ ⟨0, by norm_num⟩
  rw [total_stamp_duty_eq, total_stamp_duty_eq, round2_cent c1, round2_cent c2]
  rcases eq_or_lt_of_le hq0 with heq1 | hpos1
  · rw [runBands_of_nonpos (p1 : ℚ) add (p1 : ℚ) 0 (le_of_eq heq1.symm)]
    rcases eq_or_lt_of_le (hq0.trans hq12) with heq2 | hpos2
    · rw [runBands_of_nonpos (p2 : ℚ) add (p2 : ℚ) 0 (le_of_eq heq2.symm)]
    · rw [duty_formula _ hpos2 ftb add]
      have ht : 0 ≤ tailDuty (p2 : ℚ) 0 (selected_bands (p2 : ℚ) ftb) :=
        tailDuty_nonneg _ _ 0 hpos2.le (selected_ratesNonneg _ _) (selected_bandsMono _ _)
      have hs : 0 ≤ (if add then (p2 : ℚ) * additional_property_surcharge else 0) := by
        cases add
        · simp
        · simp only [if_pos rfl]
          exact mul_nonneg hpos2.le surcharge_rate_nonneg
      show (0 : ℚ) ≤ _
      linarith
  · have hpos2 : (0 : ℚ) < (p2 : ℚ) := lt_of_lt_of_le hpos1 hq12
    rw [duty_formula _ hpos1 ftb add, duty_formula _ hpos2 ftb add]
    have hmono : tailDuty (p1 : ℚ) 0 (selected_bands (p1 : ℚ) ftb) ≤
        tailDuty (p2 : ℚ) 0 (selected_bands (p2 : ℚ) ftb) :=
      selected_tailDuty_mono hpos1.le hq12 ftb
    have hsur : (if add then (p1 : ℚ) * additional_property_surcharge else 0) ≤
        (if add then (p2 : ℚ) * additional_property_surcharge else 0) := by
      cases add
      · simp
      · simp only [if_pos rfl]
        exact mul_le_mul_of_nonneg_right hq12 surcharge_rate_nonneg
    exact add_le_add hmono hsur

/-- C7 witness across the eligibility boundary: 400000 to 600000 with the
first-time-buyer flag set. -/
theorem claim_total_duty_monotone_witness :
    (0 : ℤ) ≤ 400000 ∧ (400000 : ℤ) ≤ 600000 ∧
      (calculate_stamp_duty 400000 true false).total_stamp_duty ≤
        (calculate_stamp_duty 600000 true false).total_stamp_duty :=
  ⟨by norm_num, by norm_num,
    claim_total_duty_monotone 400000 600000 (by norm_num) (by norm_num) true false⟩

/-- C8: at price 0 (with any flag values) the total is 0 and the breakdown is
empty. -/
theorem claim_zero_price (ftb add : Bool) :
    (calculate_stamp_duty 0 ftb add).total_stamp_duty = 0 ∧
      (calculate_stamp_duty 0 ftb add).breakdown = [] := by
  have heq := calculate_stamp_duty_of_nonpos 0 (by norm_num) ftb add
  exact ⟨by rw [heq], by rw [heq]⟩

/-- C9: the concrete scenario price 300000, no flags: total 5000 and exactly
three breakdown entries, in ascending band order, of 125000 at 0% (duty 0),
125000 at 2% (duty 2500) and 50000 at 5% (duty 2500). -/
theorem claim_example_300000 :
    calculate_stamp_duty 300000 false false =
      ⟨5000, 300000, false, false,
        [⟨0, 125000, 125000, 0, 0⟩, ⟨125000, 250000, 125000, 2, 2500⟩,
         ⟨250000, 300000, 50000, 5, 2500⟩]⟩ := by
  norm_num [calculate_stamp_duty, selected_bands, standard_bands, runBands,
    surchargeAmt, rateDisplay, round2, roundHalfEven, additional_property_surcharge]

/-- C10: for every strictly negative price and any flag values, the function
returns normally with total 0, an empty breakdown, and the input price and
flags echoed back unchanged. -/
theorem claim_negative_price_echoes_inputs (price : ℤ) (h : price < 0) (ftb add : Bool) :
    calculate_stamp_duty price ftb add = ⟨0, (price : ℚ), ftb, add, []⟩ :=
  calculate_stamp_duty_of_nonpos price (by exact_mod_cast h.le) ftb add

/-- C10 witness at price `-5` with both flags set. -/
theorem claim_negative_price_echoes_inputs_witness :
    (-5 : ℤ) < 0 ∧
      calculate_stamp_duty (-5) true true = ⟨0, ((-5 : ℤ) : ℚ), true, true, []⟩ :=
  ⟨by norm_num, claim_negative_price_echoes_inputs (-5) (by norm_num) true true⟩
